import Mathlib

/-!
Shallow embedding of the Masterblog API backend (src/backend/backend_app.py).

Posts are Python dicts mapping string keys to JSON values; the code only ever
stores integers (the assigned id) and strings (title, content, and any extra
keys a client sends).  The global POSTS list is threaded explicitly: every
mutating route is a function from the current collection (plus the request
data) to the new collection and the response.  A Python statement that can
raise an uncaught exception is modelled with Option/none on the corresponding
path.
-/

namespace Blog

/-- JSON-style values stored in a post mapping. -/
inductive Val
| vint (n : Int)
| vstr (s : String)
deriving DecidableEq

/-- A post is a Python dict: an association list in key-insertion order.
Lookup returns the first binding of a key. -/
abbrev Post := List (String × Val)

/-- Dict lookup, post.get(k): first binding of the key, none when absent. -/
def dGet? : Post → String → Option Val
| [], _ => none
| (k', v) :: rest, k => if k' == k then some v else dGet? rest k

/-- Python membership test k in post. -/
def dHas (d : Post) (k : String) : Bool :=
  (dGet? d k).isSome

/-- Dict assignment post[k] = v: overwrite in place when the key exists
(keeping its position), append a new binding otherwise. -/
def dSet : Post → String → Val → Post
| [], k, v => [(k, v)]
| (k', v') :: rest, k, v =>
  if k' == k then (k, v) :: rest else (k', v') :: dSet rest k v

/-- Truthiness of request.args.get(...): None and the empty string are falsy. -/
def truthy : Option String → Bool
| none => false
| some s => !s.isEmpty

/-- Leading-match test: the first list is a prefix of the second. -/
def leadMatch : List Char → List Char → Bool
| [], _ => true
| _ :: _, [] => false
| a :: as, b :: bs => a == b && leadMatch as bs

/-- Substring occurrence of needle inside the haystack character list. -/
def charsContain (needle : List Char) : List Char → Bool
| [] => needle.isEmpty
| c :: rest => leadMatch needle (c :: rest) || charsContain needle rest

/-- Model of the Python substring test needle in hay on strings. -/
def strContains (hay needle : String) : Bool :=
  charsContain needle.data hay.data

/-- Lexicographic comparison of character lists by code point. -/
def charsLe : List Char → List Char → Bool
| [], _ => true
| _ :: _, [] => false
| a :: as, b :: bs => if a == b then charsLe as bs else decide (a < b)

/-- Modelled from the Python string order used by sorted: lexicographic by
code point. -/
def strLe (a b : String) : Bool :=
  charsLe a.data b.data

/-- Drop surrounding whitespace, as the Python int builtin does. -/
def stripChars (cs : List Char) : List Char :=
  ((cs.dropWhile Char.isWhitespace).reverse.dropWhile Char.isWhitespace).reverse

/-- Decimal digit accumulator (most significant digit first). -/
def digitsToNat : List Char → Nat → Nat
| [], acc => acc
| c :: cs, acc => digitsToNat cs (acc * 10 + (c.toNat - '0'.toNat))

/-- Signed run of ASCII digits to an integer; none when the shape is wrong. -/
def pyIntChars? : List Char → Option Int
| '-' :: rest =>
  if !rest.isEmpty && rest.all Char.isDigit then some (-(digitsToNat rest 0 : Int)) else none
| '+' :: rest =>
  if !rest.isEmpty && rest.all Char.isDigit then some ((digitsToNat rest 0 : Int)) else none
| cs =>
  if !cs.isEmpty && cs.all Char.isDigit then some ((digitsToNat cs 0 : Int)) else none

/-- Modelled from the Python builtin int(s): an optionally signed ASCII decimal
string with surrounding whitespace; none models the ValueError raised on any
other input (for example a non-numeric post_id search parameter). -/
def pyInt? (s : String) : Option Int :=
  pyIntChars? (stripChars s.data)

/-- The seeded global collection from backend_app.py. -/
def POSTS : List Post :=
[ [("post_id", Val.vint 1), ("title", Val.vstr "First post"),
    ("content", Val.vstr "This is the first post.")],
  [("post_id", Val.vint 2), ("title", Val.vstr "Second post"),
    ("content", Val.vstr "This is the second post.")] ]

/-- validate_post_data: only key presence is checked. -/
def validate_post_data (data : Post) : Bool :=
  dHas data "title" && dHas data "content"

/-- find_existing_post: first stored post with the same title and content as
the candidate.  The Python code indexes both keys unconditionally; it is only
called after validation, and every stored post carries both keys, so the
optional lookup agrees with the source on all reachable states. -/
def find_existing_post (posts : List Post) (post : Post) : Option Post :=
  posts.find? (fun q =>
    dGet? q "title" == dGet? post "title" && dGet? q "content" == dGet? post "content")

/-- find_post_by_id: first post whose post_id equals the given integer; a post
without the key (or with a non-integer value) is skipped, like the
KeyError-swallowing loop in the source. -/
def find_post_by_id (posts : List Post) (post_id : Int) : Option Post :=
  posts.find? (fun p => dGet? p "post_id" == some (Val.vint post_id))

/-- The integer id of a post, none when the key is absent or not an integer. -/
def idOf? (p : Post) : Option Int :=
  match dGet? p "post_id" with
  | some (Val.vint n) => some n
  | _ => none

/-- All ids of the collection, none as soon as one post lacks an integer id. -/
def idsOf? : List Post → Option (List Int)
| [] => some []
| p :: rest =>
  match idOf? p, idsOf? rest with
  | some n, some ns => some (n :: ns)
  | _, _ => none

/-- Model of max(post[post_id] for post in POSTS): none models the exception
Python raises on an empty collection (ValueError from max) or on a post
without an integer id (KeyError / TypeError). -/
def maxId? (posts : List Post) : Option Int :=
  match idsOf? posts with
  | some (i :: is) => some (is.foldl max i)
  | _ => none

/-- Responses of the POST branch of get_posts.  crash stands for the uncaught
exception raised by max over an empty collection. -/
inductive CreateResp
| invalid
| duplicate
| crash
| created (p : Post)
deriving DecidableEq

/-- POST branch of get_posts: validate, reject duplicates, assign
max existing id + 1, append, and return the stored post. -/
def create_post (posts : List Post) (new_post : Post) : List Post × CreateResp :=
  if !validate_post_data new_post then (posts, CreateResp.invalid)
  else if (find_existing_post posts new_post).isSome then (posts, CreateResp.duplicate)
  else
    match maxId? posts with
    | none => (posts, CreateResp.crash)
    | some m =>
      let p := dSet new_post "post_id" (Val.vint (m + 1))
      (posts ++ [p], CreateResp.created p)

/-- is_valid_sort_field from the source. -/
def is_valid_sort_field (field : String) : Bool :=
  field == "title" || field == "content"

/-- is_valid_sort_direction from the source. -/
def is_valid_sort_direction (direction : String) : Bool :=
  direction == "asc" || direction == "desc"

/-- Sort key lambda post: post[field].  A missing key (where Python raises
KeyError inside sorted) or a non-string value (where validation lets an
integer in and a mixed-type comparison inside sorted then raises TypeError)
is collapsed to the empty string here, so every theorem about sorting carries
a strKeyed hypothesis restricting it to collections whose sort field holds a
string on every post — the states on which the program returns a listing at
all. -/
def getStrD (p : Post) (k : String) : String :=
  match dGet? p k with
  | some (Val.vstr s) => s
  | _ => ""

/-- The key k is present on the post and holds a string: exactly the per-post
condition under which the sort key lambda post[k] neither raises KeyError nor
feeds a non-string into the comparisons of sorted. -/
def strKeyed (p : Post) (k : String) : Bool :=
  match dGet? p k with
  | some (Val.vstr _) => true
  | _ => false

/-- Comparison on posts induced by a string field, as used by sorted. -/
def leKey (k : String) (a b : Post) : Bool :=
  strLe (getStrD a k) (getStrD b k)

/-- sort_posts: a stable ascending sort by the named field, reversed afterwards
when direction is desc; any other field returns the collection unchanged
without looking at the direction (the early return in the source). -/
def sort_posts (posts : List Post) (field direction : Option String) : List Post :=
  match (if field == some "title" then some (posts.mergeSort (leKey "title"))
         else if field == some "content" then some (posts.mergeSort (leKey "content"))
         else none) with
  | none => posts
  | some sorted_posts =>
    if direction == some "desc" then sorted_posts.reverse else sorted_posts

/-- Responses of the GET branch of get_posts. -/
inductive ListResp
| badField (f : String)
| badDirection (d : String)
| ok (posts : List Post)
deriving DecidableEq

/-- GET branch of get_posts: reject a truthy invalid sort field or direction,
otherwise return sort_posts. -/
def list_posts (posts : List Post) (sort_field sort_direction : Option String) : ListResp :=
  if truthy sort_field && !is_valid_sort_field ((sort_field).getD "") then
    ListResp.badField ((sort_field).getD "")
  else if truthy sort_direction && !is_valid_sort_direction ((sort_direction).getD "") then
    ListResp.badDirection ((sort_direction).getD "")
  else
    ListResp.ok (sort_posts posts sort_field sort_direction)

/-- Responses of the PUT and DELETE routes. -/
inductive UpdateResp
| notFound
| ok
deriving DecidableEq

/-- Body application of update_post: for each of title and content present in
the request data, overwrite that field on the matched post. -/
def applyPatch (data p : Post) : Post :=
  match dGet? data "content" with
  | some v =>
    dSet (match dGet? data "title" with
          | some w => dSet p "title" w
          | none => p) "content" v
  | none =>
    match dGet? data "title" with
    | some w => dSet p "title" w
    | none => p

/-- Replace the first post whose post_id matches, mirroring the in-place
mutation of the dict returned by find_post_by_id. -/
def updateFirst (pid : Int) (f : Post → Post) : List Post → List Post
| [] => []
| p :: rest =>
  if dGet? p "post_id" == some (Val.vint pid) then f p :: rest
  else p :: updateFirst pid f rest

/-- PUT route update_post. -/
def update_post (posts : List Post) (post_id : Int) (data : Post) : List Post × UpdateResp :=
  match find_post_by_id posts post_id with
  | none => (posts, UpdateResp.notFound)
  | some _ => (updateFirst post_id (applyPatch data) posts, UpdateResp.ok)

/-- DELETE route delete_post: POSTS.remove removes the first element equal to
the found post. -/
def delete_post (posts : List Post) (post_id : Int) : List Post × UpdateResp :=
  match find_post_by_id posts post_id with
  | none => (posts, UpdateResp.notFound)
  | some p => (posts.erase p, UpdateResp.ok)

/-- Monadic filter over Option, modelling a Python list comprehension whose
predicate can raise: the first raising element aborts the whole comprehension. -/
def filterOpt (f : α → Option Bool) : List α → Option (List α)
| [] => some []
| a :: as =>
  match f a with
  | none => none
  | some b => (filterOpt f as).map (fun l => if b then a :: l else l)

/-- Model of needle in post.get(k, default-empty-string): a missing key gives
the empty string, a string value gives the substring test, an integer value
makes the in operator raise TypeError (none). -/
def memberTest? (needle : String) (p : Post) (k : String) : Option Bool :=
  match dGet? p k with
  | none => some (strContains "" needle)
  | some (Val.vstr s) => some (strContains s needle)
  | some (Val.vint _) => none

/-- post_search: a truthy post_id is converted with int (which can raise) and
looked up, ignoring the other parameters; otherwise a truthy content filter is
computed first and a truthy title filter then replaces it; with no truthy
parameter the result is empty.  none models an uncaught exception. -/
def post_search (posts : List Post) (post_id content title : Option String) :
    Option (List Post) :=
  if truthy post_id then
    match pyInt? ((post_id).getD "") with
    | none => none
    | some n =>
      match find_post_by_id posts n with
      | some p => some [p]
      | none => some []
  else
    match (if truthy content then
             filterOpt (fun p => memberTest? ((content).getD "") p "content") posts
           else some []) with
    | none => none
    | some fromContent =>
      if truthy title then
        filterOpt (fun p => memberTest? ((title).getD "") p "title") posts
      else some fromContent

/-- One mutating operation against the store. -/
inductive Op
| opCreate (c : Post)
| opUpdate (pid : Int) (data : Post)
| opDelete (pid : Int)

/-- The collection after one operation (responses discarded). -/
def applyOp (posts : List Post) : Op → List Post
| Op.opCreate c => (create_post posts c).1
| Op.opUpdate pid data => (update_post posts pid data).1
| Op.opDelete pid => (delete_post posts pid).1

/-- The collection after a sequence of operations. -/
def runOps (posts : List Post) : List Op → List Post
| [] => posts
| op :: ops => runOps (applyOp posts op) ops

/-- All post_id bindings of the collection are pairwise distinct (two posts
both lacking the key would also count as a collision). -/
abbrev DistinctIds (posts : List Post) : Prop :=
  (posts.map (fun p => dGet? p "post_id")).Nodup

/-- Both searchable fields hold strings when present, which is exactly when
the Python comprehensions in post_search cannot raise. -/
def strField (p : Post) (k : String) : Bool :=
  match dGet? p k with
  | some (Val.vint _) => false
  | _ => true

/-- Fixture: a post tied with tiedB on title, ahead of it in insertion order. -/
def tiedA : Post :=
  [("post_id", Val.vint 1), ("title", Val.vstr "Same"), ("content", Val.vstr "a")]

/-- Fixture: a post tied with tiedA on title, behind it in insertion order. -/
def tiedB : Post :=
  [("post_id", Val.vint 2), ("title", Val.vstr "Same"), ("content", Val.vstr "b")]

/-- Fixture: a collection with two posts tied on title. -/
def TIED : List Post := [tiedA, tiedB]

/-- Fixture: a candidate carrying a key beyond title and content. -/
def extraPost : Post :=
  [("title", Val.vstr "Extra"), ("author", Val.vstr "me"), ("content", Val.vstr "Body")]

/-! Helper lemmas about the dict model. -/

theorem dGet?_dSet (d : Post) (k k' : String) (v : Val) :
    dGet? (dSet d k v) k' = if k' = k then some v else dGet? d k' := by
  induction d with
  | nil =>
    by_cases h : k' = k
    · subst h; simp [dSet, dGet?]
    · simp [dSet, dGet?, h, Ne.symm h]
  | cons kv rest ih =>
    obtain ⟨k₀, v₀⟩ := kv
    by_cases h0 : k₀ = k
    · subst h0
      by_cases h1 : k' = k₀
      · subst h1; simp [dSet, dGet?]
      · simp [dSet, dGet?, h1, Ne.symm h1]
    · by_cases h1 : k' = k
      · subst h1; simp [dSet, dGet?, h0, ih]
      · simp [dSet, dGet?, h0, h1, ih]

theorem dHas_eq_true_iff (d : Post) (k : String) :
    dHas d k = true ↔ ∃ v, dGet? d k = some v := by
  simp [dHas, Option.isSome_iff_exists]

theorem idOf?_eq_some_iff (p : Post) (n : Int) :
    idOf? p = some n ↔ dGet? p "post_id" = some (Val.vint n) := by
  unfold idOf?
  constructor
  · intro h
    match hv : dGet? p "post_id" with
    | none => rw [hv] at h; cases h
    | some (Val.vstr s) => rw [hv] at h; cases h
    | some (Val.vint m) => rw [hv] at h; cases h; rfl
  · intro h
    rw [h]

theorem dGet?_applyPatch_of_ne (data p : Post) (k : String)
    (hk1 : k ≠ "title") (hk2 : k ≠ "content") :
    dGet? (applyPatch data p) k = dGet? p k := by
  unfold applyPatch
  match dGet? data "content", dGet? data "title" with
  | some v, some w => simp [dGet?_dSet, hk1, hk2]
  | some v, none => simp [dGet?_dSet, hk2]
  | none, some w => simp [dGet?_dSet, hk1]
  | none, none => rfl

theorem dGet?_applyPatch_absent (data p : Post) (k : String)
    (hk : dGet? data k = none) :
    dGet? (applyPatch data p) k = dGet? p k := by
  unfold applyPatch
  by_cases h1 : k = "title"
  · subst h1
    rw [hk]
    match hc : dGet? data "content" with
    | some v => simp [dGet?_dSet]
    | none => rfl
  · by_cases h2 : k = "content"
    · subst h2
      rw [hk]
      match ht : dGet? data "title" with
      | some w => simp [dGet?_dSet, h1]
      | none => rfl
    · exact dGet?_applyPatch_of_ne data p k h1 h2

theorem applyPatch_title_only (data p : Post) (w : Val)
    (ht : dGet? data "title" = some w) (hc : dGet? data "content" = none) :
    applyPatch data p = dSet p "title" w := by
  unfold applyPatch
  rw [hc, ht]

theorem map_updateFirst (g : Post → α) (pid : Int) (f : Post → Post)
    (posts : List Post) (hg : ∀ p, g (f p) = g p) :
    (updateFirst pid f posts).map g = posts.map g := by
  induction posts with
  | nil => rfl
  | cons p rest ih =>
    unfold updateFirst
    by_cases h : (dGet? p "post_id" == some (Val.vint pid)) = true
    · simp [h, hg]
    · rw [Bool.not_eq_true] at h
      simp [h, ih]

theorem updateFirst_decomp (posts : List Post) (pid : Int) (p : Post)
    (f : Post → Post) (h : find_post_by_id posts pid = some p) :
    ∃ pre suf, posts = pre ++ p :: suf
      ∧ (∀ q ∈ pre, (dGet? q "post_id" == some (Val.vint pid)) = false)
      ∧ updateFirst pid f posts = pre ++ f p :: suf := by
  induction posts with
  | nil => simp [find_post_by_id] at h
  | cons a rest ih =>
    rw [find_post_by_id, List.find?_cons] at h
    by_cases ha : (dGet? a "post_id" == some (Val.vint pid)) = true
    · rw [ha] at h
      cases h
      refine ⟨[], rest, rfl, by simp, ?_⟩
      unfold updateFirst
      rw [ha]
      simp
    · rw [Bool.not_eq_true] at ha
      rw [ha] at h
      obtain ⟨pre, suf, hsplit, hpre, hupd⟩ := ih h
      refine ⟨a :: pre, suf, by simp [hsplit], ?_, ?_⟩
      · intro q hq
        cases hq with
        | head => exact ha
        | tail _ hq' => exact hpre q hq'
      · unfold updateFirst
        rw [ha]
        simp [hupd]

theorem le_foldl_max (l : List Int) (i : Int) : i ≤ l.foldl max i := by
  induction l generalizing i with
  | nil => exact le_refl i
  | cons n rest ih => exact le_trans (le_max_left i n) (ih (max i n))

theorem mem_le_foldl_max (l : List Int) : ∀ (i n : Int), n ∈ l → n ≤ l.foldl max i := by
  induction l with
  | nil => intro _ _ hn; cases hn
  | cons a rest ih =>
    intro i n hn
    rw [List.foldl_cons]
    rcases List.mem_cons.mp hn with h | h
    · subst h; exact le_trans (le_max_right i n) (le_foldl_max rest (max i n))
    · exact ih (max i a) n h

theorem idsOf?_mem (posts : List Post) (ns : List Int)
    (h : idsOf? posts = some ns) (p : Post) (hp : p ∈ posts) :
    ∃ n ∈ ns, idOf? p = some n := by
  induction posts generalizing ns with
  | nil => cases hp
  | cons a rest ih =>
    rw [idsOf?] at h
    match ha : idOf? a, hrest : idsOf? rest with
    | some n, some ms =>
      rw [ha, hrest] at h
      cases h
      cases hp with
      | head => exact ⟨n, by simp, ha⟩
      | tail _ hp' =>
        obtain ⟨m, hm, hpm⟩ := ih ms hrest hp'
        exact ⟨m, by simp [hm], hpm⟩
    | some n, none => rw [ha, hrest] at h; cases h
    | none, some ms => rw [ha, hrest] at h; cases h
    | none, none => rw [ha, hrest] at h; cases h

theorem maxId?_mem_le (posts : List Post) (m : Int)
    (h : maxId? posts = some m) (p : Post) (hp : p ∈ posts) :
    ∃ n, idOf? p = some n ∧ n ≤ m := by
  unfold maxId? at h
  match hids : idsOf? posts with
  | some (i :: is) =>
    rw [hids] at h
    cases h
    obtain ⟨n, hn, hpn⟩ := idsOf?_mem posts (i :: is) hids p hp
    refine ⟨n, hpn, ?_⟩
    rcases List.mem_cons.mp hn with h | h
    · subst h; exact le_foldl_max is n
    · exact mem_le_foldl_max is i n h
  | some [] => rw [hids] at h; cases h
  | none => rw [hids] at h; cases h

theorem truthy_some_iff (s : String) : truthy (some s) = true ↔ s ≠ "" := by
  cases he : s.isEmpty with
  | true => rw [truthy, he]; simp [(String.isEmpty_iff s).mp he]
  | false =>
    rw [truthy, he]
    have hs : s ≠ "" := fun h => absurd (h ▸ he) (by decide)
    simp [hs]

theorem truthy_eq_false_iff (o : Option String) :
    truthy o = false ↔ o = none ∨ o = some "" := by
  cases o with
  | none => simp [truthy]
  | some s =>
    cases he : s.isEmpty with
    | true => rw [truthy, he]; simp [(String.isEmpty_iff s).mp he]
    | false =>
      rw [truthy, he]
      have hs : s ≠ "" := fun h => absurd (h ▸ he) (by decide)
      simp [hs]

theorem filterOpt_eq_filter (f : α → Option Bool) (g : α → Bool) (l : List α)
    (h : ∀ a ∈ l, f a = some (g a)) :
    filterOpt f l = some (l.filter g) := by
  induction l with
  | nil => rfl
  | cons a as ih =>
    rw [filterOpt, h a (by simp), ih (fun x hx => h x (by simp [hx])), List.filter_cons]
    by_cases hg : g a = true
    · simp [hg]
    · rw [Bool.not_eq_true] at hg
      simp [hg]

theorem memberTest?_eq_of_strField (needle : String) (p : Post) (k : String)
    (h : strField p k = true) :
    memberTest? needle p k = some (strContains (getStrD p k) needle) := by
  unfold memberTest? getStrD
  unfold strField at h
  match hv : dGet? p k with
  | none => simp
  | some (Val.vstr s) => simp
  | some (Val.vint n) => rw [hv] at h; cases h

theorem charsLe_total (a b : List Char) : charsLe a b = true ∨ charsLe b a = true := by
  induction a generalizing b with
  | nil => left; rfl
  | cons x xs ih =>
    cases b with
    | nil => right; rfl
    | cons y ys =>
      by_cases hxy : x = y
      · subst hxy
        rcases ih ys with h | h
        · left; simp [charsLe, h]
        · right; simp [charsLe, h]
      · rcases lt_or_gt_of_ne hxy with h | h
        · left; simp [charsLe, hxy, h]
        · right; simp [charsLe, Ne.symm hxy, h]

theorem charsLe_trans (a b c : List Char) (hab : charsLe a b = true)
    (hbc : charsLe b c = true) : charsLe a c = true := by
  induction a generalizing b c with
  | nil => rfl
  | cons x xs ih =>
    cases b with
    | nil => cases hab
    | cons y ys =>
      cases c with
      | nil => cases hbc
      | cons z zs =>
        rw [charsLe] at hab hbc ⊢
        by_cases hxy : x = y
        · subst hxy
          rw [if_pos (by simp)] at hab
          by_cases hyz : x = z
          · subst hyz
            rw [if_pos (by simp)] at hbc
            rw [if_pos (by simp)]
            exact ih ys zs hab hbc
          · rw [if_neg (by simpa using hyz)] at hbc
            rw [if_neg (by simpa using hyz)]
            exact hbc
        · rw [if_neg (by simpa using hxy)] at hab
          by_cases hyz : y = z
          · subst hyz
            rw [if_neg (by simpa using hxy)]
            exact hab
          · rw [if_neg (by simpa using hyz)] at hbc
            have hxz : x < z := lt_trans (of_decide_eq_true hab) (of_decide_eq_true hbc)
            rw [if_neg (by simpa using ne_of_lt hxz)]
            exact decide_eq_true hxz

theorem leKey_total (k : String) (a b : Post) :
    (leKey k a b || leKey k b a) = true := by
  rcases charsLe_total (getStrD a k).data (getStrD b k).data with h | h
  · simp [leKey, strLe, h]
  · simp [leKey, strLe, h]

theorem leKey_trans (k : String) (a b c : Post) (hab : leKey k a b = true)
    (hbc : leKey k b c = true) : leKey k a c = true :=
  charsLe_trans _ _ _ hab hbc

theorem leKey_of_eq (k : String) (a b : Post) (h : getStrD a k = getStrD b k) :
    leKey k a b = true := by
  rw [leKey, strLe, h]
  clear h
  induction (getStrD b k).data with
  | nil => rfl
  | cons x xs ih => simp [charsLe, ih]

theorem create_post_success (posts : List Post) (c : Post) (m : Int)
    (hm : maxId? posts = some m) (hv : validate_post_data c = true)
    (hd : find_existing_post posts c = none) :
    create_post posts c =
      (posts ++ [dSet c "post_id" (Val.vint (m + 1))],
       CreateResp.created (dSet c "post_id" (Val.vint (m + 1)))) := by
  unfold create_post
  rw [hv, hd, hm]
  rfl

/-! Claim theorems. -/

/-- C1 counterexample: on the empty collection, creating a valid fresh post
does not assign id 1 and does not grow the collection; the id computation
(max over an empty sequence) raises and the store is left unchanged. -/
theorem create_on_empty_does_not_assign_one :
    create_post [] [("title", Val.vstr "A"), ("content", Val.vstr "B")] =
      ([], CreateResp.crash) := by decide

/-- C1 (amended): when every stored post carries an integer id and at least
one post exists (so max is defined), creating a valid, non-duplicate post
appends exactly one post whose assigned id is the previous maximum id plus
one; on the empty collection the operation instead fails with an uncaught
exception and no post is created. -/
theorem create_increments_size_and_assigns_max_plus_one
    (posts : List Post) (c : Post) (m : Int)
    (hm : maxId? posts = some m)
    (hv : validate_post_data c = true)
    (hd : find_existing_post posts c = none) :
    create_post posts c =
      (posts ++ [dSet c "post_id" (Val.vint (m + 1))],
       CreateResp.created (dSet c "post_id" (Val.vint (m + 1))))
    ∧ (create_post posts c).1.length = posts.length + 1
    ∧ idOf? (dSet c "post_id" (Val.vint (m + 1))) = some (m + 1)
    ∧ (∀ p ∈ posts, ∃ n, idOf? p = some n ∧ n ≤ m) := by
  have hmain := create_post_success posts c m hm hv hd
  refine ⟨hmain, ?_, ?_, fun p hp => maxId?_mem_le posts m hm p hp⟩
  · rw [hmain, List.length_append]
    rfl
  · rw [idOf?_eq_some_iff, dGet?_dSet]
    simp

/-- Witness instantiating the amended C1 theorem on the seeded collection. -/
theorem create_increments_size_witness :
    create_post POSTS [("title", Val.vstr "Third post"),
        ("content", Val.vstr "This is the third post.")] =
      (POSTS ++ [dSet [("title", Val.vstr "Third post"),
          ("content", Val.vstr "This is the third post.")] "post_id" (Val.vint 3)],
       CreateResp.created (dSet [("title", Val.vstr "Third post"),
          ("content", Val.vstr "This is the third post.")] "post_id" (Val.vint 3)))
    ∧ (create_post POSTS [("title", Val.vstr "Third post"),
        ("content", Val.vstr "This is the third post.")]).1.length = POSTS.length + 1 := by
  have h := create_increments_size_and_assigns_max_plus_one POSTS
    [("title", Val.vstr "Third post"), ("content", Val.vstr "This is the third post.")]
    2 (by decide) (by decide) (by decide)
  exact ⟨h.1, h.2.1⟩

/-- C6: creating a candidate whose title and content both exactly equal those
of some stored post is rejected as a duplicate and returns the collection
unchanged, with no mutation on this path. -/
theorem create_duplicate_rejected (posts : List Post) (c q : Post) (tv cv : Val)
    (hq : q ∈ posts)
    (hct : dGet? c "title" = some tv) (hcc : dGet? c "content" = some cv)
    (hqt : dGet? q "title" = some tv) (hqc : dGet? q "content" = some cv) :
    create_post posts c = (posts, CreateResp.duplicate) := by
  have hv : validate_post_data c = true := by
    simp [validate_post_data, dHas, hct, hcc]
  have hfind : (find_existing_post posts c).isSome = true := by
    rw [find_existing_post, List.find?_isSome]
    exact ⟨q, hq, by rw [hqt, hct, hqc, hcc]; simp⟩
  unfold create_post
  rw [hv, hfind]
  rfl

/-- Witness instantiating C6: re-posting the first seed post (with an extra
key) is rejected as a duplicate. -/
theorem create_duplicate_rejected_witness :
    create_post POSTS [("title", Val.vstr "First post"),
        ("content", Val.vstr "This is the first post."), ("extra", Val.vint 9)] =
      (POSTS, CreateResp.duplicate) :=
  create_duplicate_rejected POSTS
    [("title", Val.vstr "First post"),
      ("content", Val.vstr "This is the first post."), ("extra", Val.vint 9)]
    [("post_id", Val.vint 1), ("title", Val.vstr "First post"),
      ("content", Val.vstr "This is the first post.")]
    (Val.vstr "First post") (Val.vstr "This is the first post.")
    (by decide) (by decide) (by decide) (by decide) (by decide)

/-- C7: create answers ValidationError exactly when the title key or the
content key is absent from the candidate; a present key with an empty-string
value is accepted, and on this failure the collection is unchanged. -/
theorem create_validation_iff (posts : List Post) (c : Post) :
    ((create_post posts c).2 = CreateResp.invalid
        ↔ (dHas c "title" = false ∨ dHas c "content" = false))
    ∧ ((create_post posts c).2 = CreateResp.invalid → (create_post posts c).1 = posts)
    ∧ (dGet? c "title" = some (Val.vstr "") → dGet? c "content" = some (Val.vstr "") →
        (create_post posts c).2 ≠ CreateResp.invalid) := by
  by_cases h1 : dHas c "title" = true
  · by_cases h2 : dHas c "content" = true
    · have hval : validate_post_data c = true := by
        simp [validate_post_data, h1, h2]
      have hne : (create_post posts c).2 ≠ CreateResp.invalid := by
        unfold create_post
        rw [hval]
        by_cases hf : (find_existing_post posts c).isSome = true
        · simp [hf]
        · rw [Bool.not_eq_true] at hf
          cases hm : maxId? posts with
          | none => simp [hf, hm]
          | some m => simp [hf, hm]
      exact ⟨by simp [hne, h1, h2], fun h => absurd h hne, fun _ _ => hne⟩
    · rw [Bool.not_eq_true] at h2
      have hval : validate_post_data c = false := by
        simp [validate_post_data, h2]
      have hcr : create_post posts c = (posts, CreateResp.invalid) := by
        unfold create_post
        rw [hval]
        rfl
      refine ⟨by simp [hcr, h2], fun _ => by rw [hcr], fun _ hcd => ?_⟩
      simp [dHas, hcd] at h2
  · rw [Bool.not_eq_true] at h1
    have hval : validate_post_data c = false := by
      simp [validate_post_data, h1]
    have hcr : create_post posts c = (posts, CreateResp.invalid) := by
      unfold create_post
      rw [hval]
      rfl
    refine ⟨by simp [hcr, h1], fun _ => by rw [hcr], fun hct _ => ?_⟩
    simp [dHas, hct] at h1

/-- Witness instantiating C7: a candidate without a title is rejected and the
collection is unchanged, while empty-string fields are accepted. -/
theorem create_validation_iff_witness :
    (create_post POSTS [("content", Val.vstr "x")]).2 = CreateResp.invalid
    ∧ (create_post POSTS [("content", Val.vstr "x")]).1 = POSTS
    ∧ (create_post POSTS [("title", Val.vstr ""), ("content", Val.vstr "")]).2 ≠
        CreateResp.invalid := by
  have h := create_validation_iff POSTS [("content", Val.vstr "x")]
  have h' := create_validation_iff POSTS [("title", Val.vstr ""), ("content", Val.vstr "")]
  have hinv : (create_post POSTS [("content", Val.vstr "x")]).2 = CreateResp.invalid :=
    h.1.mpr (Or.inl (by decide))
  exact ⟨hinv, h.2.1 hinv, h'.2.2 (by decide) (by decide)⟩

/-- C5: updating an existing post with a patch that carries only a title
rewrites exactly that post's title, keeps its content and id, leaves every
other post in the collection untouched, and more generally never modifies a
field absent from the patch. -/
theorem update_title_only_frame (posts : List Post) (X : Int) (data p : Post) (w : Val)
    (hp : find_post_by_id posts X = some p)
    (ht : dGet? data "title" = some w)
    (hc : dGet? data "content" = none) :
    ∃ pre suf, posts = pre ++ p :: suf
      ∧ (∀ q ∈ pre, (dGet? q "post_id" == some (Val.vint X)) = false)
      ∧ update_post posts X data = (pre ++ applyPatch data p :: suf, UpdateResp.ok)
      ∧ dGet? (applyPatch data p) "title" = some w
      ∧ dGet? (applyPatch data p) "content" = dGet? p "content"
      ∧ dGet? (applyPatch data p) "post_id" = dGet? p "post_id"
      ∧ (∀ k, dGet? data k = none → dGet? (applyPatch data p) k = dGet? p k) := by
  obtain ⟨pre, suf, hsplit, hpre, hupd⟩ :=
    updateFirst_decomp posts X p (applyPatch data) hp
  have hap : applyPatch data p = dSet p "title" w := applyPatch_title_only data p w ht hc
  refine ⟨pre, suf, hsplit, hpre, ?_, ?_, ?_, ?_,
    fun k hk => dGet?_applyPatch_absent data p k hk⟩
  · unfold update_post
    rw [hp, hupd]
  · rw [hap, dGet?_dSet]
    simp
  · rw [hap, dGet?_dSet]
    simp
  · rw [hap, dGet?_dSet]
    simp

/-- Witness instantiating C5: retitling seed post 1 keeps its content and id
and leaves the second seed post in place. -/
theorem update_title_only_frame_witness :
    (update_post POSTS 1 [("title", Val.vstr "T")]).2 = UpdateResp.ok
    ∧ (update_post POSTS 1 [("title", Val.vstr "T")]).1.length = POSTS.length
    ∧ dGet? (applyPatch [("title", Val.vstr "T")]
        [("post_id", Val.vint 1), ("title", Val.vstr "First post"),
          ("content", Val.vstr "This is the first post.")]) "content" =
        some (Val.vstr "This is the first post.") := by
  obtain ⟨pre, suf, hsplit, hpre, hupd, htitle, hcontent, hid, habsent⟩ :=
    update_title_only_frame POSTS 1 [("title", Val.vstr "T")]
      [("post_id", Val.vint 1), ("title", Val.vstr "First post"),
        ("content", Val.vstr "This is the first post.")]
      (Val.vstr "T") (by decide) (by decide) (by decide)
  refine ⟨by rw [hupd], ?_, by rw [hcontent]; rfl⟩
  rw [hupd, hsplit]
  simp

theorem create_post_fst_cases (posts : List Post) (c : Post) :
    (create_post posts c).1 = posts ∨
    ∃ m, maxId? posts = some m ∧
      (create_post posts c).1 = posts ++ [dSet c "post_id" (Val.vint (m + 1))] := by
  by_cases hv : validate_post_data c = true
  · by_cases hf : (find_existing_post posts c).isSome = true
    · left
      unfold create_post
      rw [hv, hf]
      rfl
    · rw [Bool.not_eq_true] at hf
      cases hm : maxId? posts with
      | none =>
        left
        unfold create_post
        rw [hv, hf, hm]
        rfl
      | some m =>
        right
        refine ⟨m, rfl, ?_⟩
        unfold create_post
        rw [hv, hf, hm]
        rfl
  · rw [Bool.not_eq_true] at hv
    left
    unfold create_post
    rw [hv]
    rfl

theorem distinctIds_create (posts : List Post) (c : Post) (h : DistinctIds posts) :
    DistinctIds ((create_post posts c).1) := by
  rcases create_post_fst_cases posts c with heq | ⟨m, hm, heq⟩
  · rw [heq]; exact h
  · rw [heq]
    show ((posts ++ [dSet c "post_id" (Val.vint (m + 1))]).map
      (fun p => dGet? p "post_id")).Nodup
    rw [List.map_append, List.nodup_append]
    refine ⟨h, by simp, ?_⟩
    intro a ha hb
    rw [List.map_cons, List.map_nil, List.mem_singleton] at hb
    rw [List.mem_map] at ha
    obtain ⟨p, hp, hpa⟩ := ha
    obtain ⟨n, hn, hnm⟩ := maxId?_mem_le posts m hm p hp
    rw [idOf?_eq_some_iff] at hn
    have hpid : dGet? (dSet c "post_id" (Val.vint (m + 1))) "post_id" =
        some (Val.vint (m + 1)) := by
      rw [dGet?_dSet]
      simp
    rw [hpid] at hb
    rw [hn] at hpa
    rw [hb] at hpa
    simp at hpa
    omega

theorem distinctIds_update (posts : List Post) (pid : Int) (data : Post)
    (h : DistinctIds posts) : DistinctIds ((update_post posts pid data).1) := by
  unfold update_post
  cases hp : find_post_by_id posts pid with
  | none => exact h
  | some p =>
    show ((updateFirst pid (applyPatch data) posts).map
      (fun q => dGet? q "post_id")).Nodup
    rw [map_updateFirst _ pid _ posts
      (fun q => dGet?_applyPatch_of_ne data q "post_id" (by decide) (by decide))]
    exact h

theorem distinctIds_delete (posts : List Post) (pid : Int)
    (h : DistinctIds posts) : DistinctIds ((delete_post posts pid).1) := by
  unfold delete_post
  cases hp : find_post_by_id posts pid with
  | none => exact h
  | some p =>
    show (((posts.erase p)).map (fun q => dGet? q "post_id")).Nodup
    exact List.Nodup.sublist
      (List.Sublist.map (fun q => dGet? q "post_id") (List.erase_sublist p posts)) h

/-- C8: starting from a collection with pairwise-distinct post ids, any
sequence of create, update, and delete operations leaves the ids pairwise
distinct. -/
theorem ids_remain_distinct (posts : List Post) (ops : List Op)
    (h : DistinctIds posts) : DistinctIds (runOps posts ops) := by
  induction ops generalizing posts with
  | nil => exact h
  | cons op ops ih =>
    show DistinctIds (runOps (applyOp posts op) ops)
    apply ih
    cases op with
    | opCreate c => exact distinctIds_create posts c h
    | opUpdate pid data => exact distinctIds_update posts pid data h
    | opDelete pid => exact distinctIds_delete posts pid h

/-- Witness instantiating C8 on the seeded collection with one operation of
each kind. -/
theorem ids_remain_distinct_witness :
    DistinctIds (runOps POSTS
      [Op.opCreate [("title", Val.vstr "t"), ("content", Val.vstr "c")],
       Op.opDelete 1,
       Op.opUpdate 2 [("title", Val.vstr "x")]]) :=
  ids_remain_distinct POSTS
    [Op.opCreate [("title", Val.vstr "t"), ("content", Val.vstr "c")],
     Op.opDelete 1,
     Op.opUpdate 2 [("title", Val.vstr "x")]] (by decide)

/-- C4: over a collection whose sort field holds a string on every post (the
states where sorted in the source returns instead of raising), for a valid
sort field the descending listing is the exact element-wise reverse of the
ascending listing, and two posts tied on the sort field appear in
reverse-of-insertion relative order in the descending result. -/
theorem list_desc_is_reverse_of_asc (posts : List Post) (f : String)
    (hf : f = "title" ∨ f = "content")
    (hstr : ∀ p ∈ posts, strKeyed p f = true) :
    (list_posts posts (some f) (some "asc") = ListResp.ok (posts.mergeSort (leKey f))
      ∧ list_posts posts (some f) (some "desc") =
          ListResp.ok ((posts.mergeSort (leKey f)).reverse))
    ∧ (∀ p q, [p, q].Sublist posts → getStrD p f = getStrD q f →
        [q, p].Sublist ((posts.mergeSort (leKey f)).reverse)) := by
  constructor
  · rcases hf with hf | hf <;> subst hf <;> exact ⟨rfl, rfl⟩
  · intro p q hsub hkey
    have hpw : List.Pairwise (fun a b => leKey f a b = true) [p, q] := by
      refine List.Pairwise.cons ?_ (by simp)
      intro b hb
      rw [List.mem_singleton] at hb
      rw [hb]
      exact leKey_of_eq f p q hkey
    have hpair : [p, q].Sublist (posts.mergeSort (leKey f)) :=
      List.sublist_mergeSort (fun a b c hab hbc => leKey_trans f a b c hab hbc)
        (leKey_total f) hpw hsub
    simpa using hpair.reverse

/-- Witness instantiating C4 on a collection with two posts tied on title. -/
theorem list_desc_is_reverse_of_asc_witness :
    (list_posts TIED (some "title") (some "asc") = ListResp.ok (TIED.mergeSort (leKey "title"))
      ∧ list_posts TIED (some "title") (some "desc") =
          ListResp.ok ((TIED.mergeSort (leKey "title")).reverse))
    ∧ [tiedB, tiedA].Sublist ((TIED.mergeSort (leKey "title")).reverse) := by
  have h := list_desc_is_reverse_of_asc TIED "title" (Or.inl rfl) (by decide)
  exact ⟨h.1, h.2 tiedA tiedB (List.Sublist.refl TIED) rfl⟩

theorem post_search_eval (posts : List Post) (post_id content title : Option String)
    (hw : ∀ p ∈ posts, strField p "title" = true ∧ strField p "content" = true) :
    post_search posts post_id content title =
      if truthy post_id then
        match pyInt? ((post_id).getD "") with
        | none => none
        | some n => some ((find_post_by_id posts n).toList)
      else if truthy title then
        some (posts.filter (fun p => strContains (getStrD p "title") ((title).getD "")))
      else if truthy content then
        some (posts.filter (fun p => strContains (getStrD p "content") ((content).getD "")))
      else some [] := by
  have hcfilter : filterOpt (fun p => memberTest? ((content).getD "") p "content") posts
      = some (posts.filter (fun p => strContains (getStrD p "content") ((content).getD ""))) :=
    filterOpt_eq_filter _ _ posts
      (fun p hp' => memberTest?_eq_of_strField _ p "content" (hw p hp').2)
  have htfilter : filterOpt (fun p => memberTest? ((title).getD "") p "title") posts
      = some (posts.filter (fun p => strContains (getStrD p "title") ((title).getD ""))) :=
    filterOpt_eq_filter _ _ posts
      (fun p hp' => memberTest?_eq_of_strField _ p "title" (hw p hp').1)
  unfold post_search
  by_cases hp : truthy post_id = true
  · rw [if_pos hp, if_pos hp]
    cases pyInt? ((post_id).getD "") with
    | none => rfl
    | some n =>
      show (match find_post_by_id posts n with
            | some p => some [p]
            | none => some []) = some ((find_post_by_id posts n).toList)
      cases find_post_by_id posts n with
      | none => rfl
      | some p => rfl
  · rw [Bool.not_eq_true] at hp
    rw [hp]
    simp only [Bool.false_eq_true, if_false]
    by_cases hc : truthy content = true
    · rw [if_pos hc, hcfilter]
      show (if truthy title = true then
              filterOpt (fun p => memberTest? ((title).getD "") p "title") posts
            else some (List.filter
              (fun p => strContains (getStrD p "content") ((content).getD "")) posts)) = _
      by_cases ht : truthy title = true
      · rw [if_pos ht, if_pos ht, htfilter]
      · rw [Bool.not_eq_true] at ht
        simp [ht, hc]
    · rw [Bool.not_eq_true] at hc
      rw [hc]
      simp only [Bool.false_eq_true, if_false]
      show (if truthy title = true then
              filterOpt (fun p => memberTest? ((title).getD "") p "title") posts
            else some ([] : List Post)) = _
      by_cases ht : truthy title = true
      · rw [if_pos ht, if_pos ht, htfilter]
      · rw [Bool.not_eq_true] at ht
        simp [ht, hc]

/-- C2 counterexample: searching the seeded collection with the non-numeric
post_id value abc reaches the int conversion, which raises; search does have a
failure outcome. -/
theorem search_nonnumeric_id_fails :
    post_search POSTS (some "abc") none none = none := by decide

/-- C2 (amended): over a collection whose title and content values are
strings, search succeeds (returning a possibly empty sequence) for every
combination of parameters in which post_id is absent, empty, or parses as an
integer; a non-empty non-numeric post_id instead makes the int conversion
raise. -/
theorem search_succeeds_on_numeric_or_absent_id
    (posts : List Post) (post_id content title : Option String)
    (hw : ∀ p ∈ posts, strField p "title" = true ∧ strField p "content" = true)
    (hid : ∀ s, post_id = some s → s ≠ "" → (pyInt? s).isSome = true) :
    (post_search posts post_id content title).isSome = true := by
  rw [post_search_eval posts post_id content title hw]
  by_cases hp : truthy post_id = true
  · rw [if_pos hp]
    cases post_id with
    | none => simp [truthy] at hp
    | some s =>
      have hs : s ≠ "" := (truthy_some_iff s).mp hp
      have hpi := hid s rfl hs
      rw [Option.isSome_iff_exists] at hpi
      obtain ⟨n, hn⟩ := hpi
      simp only [Option.getD_some]
      rw [hn]
      rfl
  · rw [Bool.not_eq_true] at hp
    rw [hp]
    simp only [Bool.false_eq_true, if_false]
    by_cases ht : truthy title = true
    · rw [if_pos ht]
      rfl
    · rw [Bool.not_eq_true] at ht
      rw [ht]
      simp only [Bool.false_eq_true, if_false]
      by_cases hc : truthy content = true
      · rw [if_pos hc]
        rfl
      · rw [Bool.not_eq_true] at hc
        rw [hc]
        simp only [Bool.false_eq_true, if_false]
        rfl

/-- Witness instantiating the amended C2 theorem with a numeric post_id and
both text filters supplied. -/
theorem search_succeeds_witness :
    (post_search POSTS (some "2") (some "post") (some "First")).isSome = true :=
  search_succeeds_on_numeric_or_absent_id POSTS (some "2") (some "post") (some "First")
    (by decide) (fun s hs _ => by cases hs; decide)

/-- C3: a supplied post_id denoting an integer makes search ignore the title
and content parameters and return the single post with that id (or nothing);
with both content and title supplied and no post_id, the title substring
filter replaces the content filter; with none of the three parameters the
result is the empty sequence. -/
theorem search_branch_semantics (posts : List Post)
    (hw : ∀ p ∈ posts, strField p "title" = true ∧ strField p "content" = true) :
    (∀ s n content title, s ≠ "" → pyInt? s = some n →
        post_search posts (some s) content title =
          some ((find_post_by_id posts n).toList))
    ∧ (∀ content t, truthy content = true → t ≠ "" →
        post_search posts none content (some t) =
          some (posts.filter (fun p => strContains (getStrD p "title") t)))
    ∧ post_search posts none none none = some [] := by
  refine ⟨?_, ?_, rfl⟩
  · intro s n content title hs hn
    rw [post_search_eval posts (some s) content title hw,
      if_pos ((truthy_some_iff s).mpr hs)]
    simp only [Option.getD_some]
    rw [hn]
  · intro content t hc ht
    rw [post_search_eval posts none content (some t) hw]
    rw [if_neg (by simp [truthy]), if_pos ((truthy_some_iff t).mpr ht)]
    rfl

/-- Witness instantiating C3 on the seeded collection: post_id 1 wins over
both filters, and a title filter replaces a content filter that would have
matched both seeds. -/
theorem search_branch_semantics_witness :
    post_search POSTS (some "1") (some "zzz") (some "zzz") =
      some ((find_post_by_id POSTS 1).toList)
    ∧ post_search POSTS none (some "second") (some "First") =
        some (POSTS.filter (fun p => strContains (getStrD p "title") "First"))
    ∧ post_search POSTS none none none = some [] := by
  have h := search_branch_semantics POSTS (by decide)
  exact ⟨h.1 "1" 1 (some "zzz") (some "zzz") (by decide) (by decide),
    h.2.1 (some "second") "First" (by decide) (by decide), h.2.2⟩

/-- C10: an empty-string search parameter behaves exactly like an absent one:
an empty post_id does not select the id branch, an empty content or title
applies no filter, and all three empty yields the empty sequence. -/
theorem search_empty_params_like_absent (posts : List Post) :
    (∀ content title,
        post_search posts (some "") content title = post_search posts none content title)
    ∧ (∀ post_id title,
        post_search posts post_id (some "") title = post_search posts post_id none title)
    ∧ (∀ post_id content,
        post_search posts post_id content (some "") = post_search posts post_id content none)
    ∧ post_search posts (some "") (some "") (some "") = some [] :=
  ⟨fun _ _ => rfl, fun _ _ => rfl, fun _ _ => rfl, rfl⟩

/-- C9: create stores the candidate mapping as received: every key other than
the assigned post_id keeps the candidate's value on the stored (and returned)
post, the unsorted listing of the new collection contains it verbatim at the
end, and searching for its id returns exactly it. -/
theorem create_keeps_extra_keys (posts : List Post) (c : Post) (m : Int) (s : String)
    (hm : maxId? posts = some m)
    (hv : validate_post_data c = true)
    (hd : find_existing_post posts c = none)
    (hs : s ≠ "") (hps : pyInt? s = some (m + 1)) :
    create_post posts c =
      (posts ++ [dSet c "post_id" (Val.vint (m + 1))],
       CreateResp.created (dSet c "post_id" (Val.vint (m + 1))))
    ∧ (∀ k, k ≠ "post_id" → dGet? (dSet c "post_id" (Val.vint (m + 1))) k = dGet? c k)
    ∧ list_posts (posts ++ [dSet c "post_id" (Val.vint (m + 1))]) none none =
        ListResp.ok (posts ++ [dSet c "post_id" (Val.vint (m + 1))])
    ∧ post_search (posts ++ [dSet c "post_id" (Val.vint (m + 1))]) (some s) none none =
        some [dSet c "post_id" (Val.vint (m + 1))] := by
  have hpid : dGet? (dSet c "post_id" (Val.vint (m + 1))) "post_id" =
      some (Val.vint (m + 1)) := by
    rw [dGet?_dSet]
    simp
  have hfind : find_post_by_id (posts ++ [dSet c "post_id" (Val.vint (m + 1))]) (m + 1) =
      some (dSet c "post_id" (Val.vint (m + 1))) := by
    unfold find_post_by_id
    rw [List.find?_append]
    have h1 : List.find? (fun p => dGet? p "post_id" == some (Val.vint (m + 1))) posts =
        none := by
      rw [List.find?_eq_none]
      intro x hx hpred
      obtain ⟨n, hn, hnm⟩ := maxId?_mem_le posts m hm x hx
      rw [idOf?_eq_some_iff] at hn
      rw [hn] at hpred
      simp at hpred
      omega
    rw [h1, Option.none_or, List.find?_cons, hpid]
    simp
  refine ⟨create_post_success posts c m hm hv hd,
    fun k hk => by rw [dGet?_dSet, if_neg hk], rfl, ?_⟩
  unfold post_search
  rw [if_pos ((truthy_some_iff s).mpr hs)]
  simp only [Option.getD_some]
  rw [hps]
  show (match find_post_by_id (posts ++ [dSet c "post_id" (Val.vint (m + 1))]) (m + 1) with
        | some p => some [p]
        | none => some []) = some [dSet c "post_id" (Val.vint (m + 1))]
  rw [hfind]

/-- Witness instantiating C9 with a candidate that carries an extra author
key, on the seeded collection. -/
theorem create_keeps_extra_keys_witness :
    (∀ k, k ≠ "post_id" → dGet? (dSet extraPost "post_id" (Val.vint 3)) k = dGet? extraPost k)
    ∧ post_search (POSTS ++ [dSet extraPost "post_id" (Val.vint 3)]) (some "3") none none =
        some [dSet extraPost "post_id" (Val.vint 3)] := by
  have h := create_keeps_extra_keys POSTS extraPost 2 "3"
    (by decide) (by decide) (by decide) (by decide) (by decide)
  exact ⟨h.2.1, h.2.2.2⟩

end Blog
